import Mathlib

/-!
# Verification of the `utl_printf` formatted-output core

Shallow embedding of the stand-alone printf-family implementation found in
`src/unnamed/part_000` (`utl_printf.c`, the Paland/Rozenberg embedded printf,
as configured in this repository: all default configuration macros, i.e.
`PRINTF_NTOA_BUFFER_SIZE = 32`, `PRINTF_FTOA_BUFFER_SIZE = 32`,
`PRINTF_DEFAULT_FLOAT_PRECISION = 6`,
`PRINTF_MAX_INTEGRAL_DIGITS_FOR_DECIMAL = 9`, long-long support on, and the
64-bit UNIX port of `src/source/port/unix`, so `int` is 32 bits and `long`,
`long long`, `size_t`, `uintptr_t`, `ptrdiff_t`, `intmax_t` are 64 bits).

Modelling decisions, used consistently below:
* C `double` values are modelled as exact rational numbers (`Frac`, an
  unreduced `Int` numerator/denominator pair with positive denominator).  The
  arithmetic the code performs on doubles is translated to exact rational
  arithmetic; IEEE re-rounding of intermediate results is not modelled.  NaN
  and the infinities are outside the model (the `value != value` test of
  `sprint_floating_point` is never true here, exactly as for finite doubles).
* C strings are NUL-free `List Char` values; the terminating NUL is implicit.
* The variadic argument list is an explicit typed argument stream
  (`Arg`); reading it with the wrong type (undefined behaviour in C) is
  modelled as consuming the argument and producing a default value.
* Machine integers are `Int`/`Nat` with explicit `% 2^w` where the C code
  relies on wrap-around (`unsigned int` width/precision/count arithmetic,
  the `NTOA_ABS` cast of `LLONG_MIN`).  C `%` and `/` on signed integers
  truncate towards zero, hence `Int.tmod`/`Int.tdiv`; `x & 1` on a two's
  complement integer is `x.emod 2`, and `x &= ~1` is `x - x.emod 2`.
* Recursive loops are given as structural recursions; where the C loop bound
  is a buffer capacity, the remaining capacity is the recursion fuel, and
  where the loop is bounded by the value shrinking (`value /= base`), a fuel
  that provably exceeds the possible iteration count is used.
-/

set_option maxRecDepth 100000

/-- Exact rational model of a C `double`: an unreduced fraction.  All
constructors used below keep `den` positive. -/
structure Frac where
  num : Int
  den : Int
deriving Repr, DecidableEq

def Frac.ofInt (n : Int) : Frac := ⟨n, 1⟩

def Frac.zero : Frac := ⟨0, 1⟩

def Frac.one : Frac := ⟨1, 1⟩

/-- The literal `0.5` of the C source. -/
def Frac.half : Frac := ⟨1, 2⟩

def Frac.neg (a : Frac) : Frac := ⟨-a.num, a.den⟩

def Frac.add (a b : Frac) : Frac := ⟨a.num * b.den + b.num * a.den, a.den * b.den⟩

def Frac.sub (a b : Frac) : Frac := ⟨a.num * b.den - b.num * a.den, a.den * b.den⟩

def Frac.mul (a b : Frac) : Frac := ⟨a.num * b.num, a.den * b.den⟩

/-- Division; the sign is normalised back into the numerator so that the
denominator stays positive (for a nonzero divisor). -/
def Frac.div (a b : Frac) : Frac :=
  if b.num < 0 then ⟨-(a.num * b.den), a.den * -b.num⟩ else ⟨a.num * b.den, a.den * b.num⟩

instance : LT Frac := ⟨fun a b => a.num * b.den < b.num * a.den⟩

instance (a b : Frac) : Decidable (a < b) :=
  inferInstanceAs (Decidable (a.num * b.den < b.num * a.den))

instance : LE Frac := ⟨fun a b => a.num * b.den ≤ b.num * a.den⟩

instance (a b : Frac) : Decidable (a ≤ b) :=
  inferInstanceAs (Decidable (a.num * b.den ≤ b.num * a.den))

/-- Value equality of fractions (the `==` comparison of two C doubles). -/
def Frac.beq (a b : Frac) : Bool := a.num * b.den == b.num * a.den

/-- The C cast `(int_fast64_t)x` / `(int)x`: truncation towards zero. -/
def Frac.trunc (a : Frac) : Int := a.num.tdiv a.den

-- sanity: truncation towards zero on both sides
example : Frac.trunc ⟨-19, 10⟩ = -1 := by decide
example : Frac.trunc ⟨19, 10⟩ = 1 := by decide

/-- The `struct double_components` of the source. -/
structure double_components where
  integral : Int
  fractional : Int
  is_negative : Bool
deriving Repr, DecidableEq

/-- The `powers_of_10` table (`1e00` … `1e17`; each entry is an exactly
representable double, so the table is exact).  Indices beyond 17 are a C
out-of-bounds access; the model totalises them as `10^e`. -/
def powers_of_10 (e : Nat) : Frac := ⟨10 ^ e, 1⟩

/-- Model of `get_sign(number)` (bit 63 of the IEEE representation) followed by the
negation: the absolute value taken at the top of `get_components`.  The
rational model has no `-0.0`. -/
def gc_abs (number : Frac) : Frac := if number < Frac.zero then number.neg else number

/-- The line `number_.integral = (int_fast64_t)abs_number` of `get_components`. -/
def gc_integral (number : Frac) : Int := (gc_abs number).trunc

/-- The line `remainder = (abs_number - number_.integral) * powers_of_10[precision]`. -/
def gc_remainder0 (number : Frac) (precision : Nat) : Frac :=
  ((gc_abs number).sub (Frac.ofInt (gc_integral number))).mul (powers_of_10 precision)

/-- The value `number_.fractional = (int_fast64_t)remainder`, before rounding. -/
def gc_fractional_pre (number : Frac) (precision : Nat) : Int :=
  (gc_remainder0 number precision).trunc

/-- The line `remainder -= (double)number_.fractional`: the scaled fractional
remainder that the rounding decision of `get_components` inspects. -/
def gc_remainder (number : Frac) (precision : Nat) : Frac :=
  (gc_remainder0 number precision).sub (Frac.ofInt (gc_fractional_pre number precision))

/-- Model of `get_components` (lines 409–444 of the source): break a finite double
into integral and fractional base-10 parts at the given precision. -/
def get_components (number : Frac) (precision : Nat) : double_components :=
  let is_negative := decide (number < Frac.zero)
  let integral := gc_integral number
  let fractional := gc_fractional_pre number precision
  let remainder := gc_remainder number precision
  let p : Int × Int :=
    if Frac.half < remainder then
      -- rounding up, with the rollover handled (`0.99` at precision 1)
      let fractional := fractional + 1
      if powers_of_10 precision ≤ Frac.ofInt fractional then (integral + 1, 0)
      else (integral, fractional)
    else if remainder.beq Frac.half then
      -- `if ((number_.fractional == 0U) || (number_.fractional & 1U))`
      (integral, if fractional = 0 ∨ fractional % 2 = 1 then fractional + 1 else fractional)
    else (integral, fractional)
  let integral := p.1
  let fractional := p.2
  if precision = 0 then
    let remainder := (gc_abs number).sub (Frac.ofInt integral)
    let integral :=
      if (¬ (remainder < Frac.half) ∨ Frac.half < remainder) ∧ integral % 2 = 1 then
        integral + 1
      else integral
    ⟨integral, fractional, is_negative⟩
  else ⟨integral, fractional, is_negative⟩

-- sanity checks against the C comments: 0.99 at precision 1 rolls over
example : get_components ⟨99, 100⟩ 1 = ⟨1, 0, false⟩ := by decide
example : get_components ⟨5, 2⟩ 0 = ⟨2, 1, false⟩ := by decide
example : get_components ⟨3, 2⟩ 0 = ⟨2, 1, false⟩ := by decide
example : get_components ⟨1, 4⟩ 1 = ⟨0, 2, false⟩ := by decide
example : get_components ⟨3, 4⟩ 1 = ⟨0, 8, false⟩ := by decide

/-- Fuel-driven floor-log2 helper (`n` itself always suffices as fuel). -/
def log2_fuel : Nat → Nat → Nat
  | _, 0 => 0
  | n, fuel+1 => if 2 ≤ n then log2_fuel (n / 2) fuel + 1 else 0

def nat_log2 (n : Nat) : Nat := log2_fuel n n

/-- Model of `get_exp2(get_bit_access(x))`: the unbiased IEEE-754 exponent field of a
positive (normal) double, i.e. the floor of its base-2 logarithm. -/
def get_exp2 (x : Frac) : Int :=
  if x.den ≤ x.num then Int.ofNat (nat_log2 (x.num.toNat / x.den.toNat))
  else -(Int.ofNat (nat_log2 ((x.den.toNat - 1) / x.num.toNat) + 1))

-- sanity: IEEE exponents on both sides of 1
example : get_exp2 ⟨100000, 1⟩ = 16 := by decide
example : get_exp2 ⟨1000000, 1⟩ = 19 := by decide
example : get_exp2 ⟨1, 2⟩ = -1 := by decide
example : get_exp2 ⟨1, 20⟩ = -5 := by decide
example : get_exp2 ⟨19, 20⟩ = -1 := by decide
example : get_exp2 ⟨1, 1⟩ = 0 := by decide
example : get_exp2 ⟨4, 1⟩ = 2 := by decide

/-- The power `2^e` as a double (`conv.U = (uint64_t)(exp2 + 1023) << 52U` and the
mantissa masking both produce exact powers of two). -/
def pow2 (e : Int) : Frac := if 0 ≤ e then ⟨2 ^ e.toNat, 1⟩ else ⟨1, 2 ^ (-e).toNat⟩

/-- The `PRINTF_ABS` macro (on `int` values). -/
def PRINTF_ABS (x : Int) : Int := if x > 0 then x else -x

/-- The `struct scaling_factor`. -/
structure scaling_factor where
  raw_factor : Frac
  multiply : Bool

def apply_scaling (num : Frac) (normalization : scaling_factor) : Frac :=
  if normalization.multiply then num.mul normalization.raw_factor
  else num.div normalization.raw_factor

def unapply_scaling (normalized : Frac) (normalization : scaling_factor) : Frac :=
  if normalization.multiply then normalized.div normalization.raw_factor
  else normalized.mul normalization.raw_factor

def update_normalization (sf : scaling_factor) (extra_multiplicative_factor : Frac) :
    scaling_factor :=
  if sf.multiply then ⟨sf.raw_factor.mul extra_multiplicative_factor, true⟩
  else
    let factor_exp2 := get_exp2 sf.raw_factor
    let extra_factor_exp2 := get_exp2 extra_multiplicative_factor
    if PRINTF_ABS factor_exp2 > PRINTF_ABS extra_factor_exp2 then
      ⟨sf.raw_factor.div extra_multiplicative_factor, false⟩
    else ⟨extra_multiplicative_factor.div sf.raw_factor, true⟩

/-- Model of `get_normalized_components` (lines 485–521).  `x & ~1` on a two's
complement `int_fast64_t` clears the lowest bit, i.e. subtracts `x.emod 2`. -/
def get_normalized_components (negative : Bool) (precision : Nat) (non_normalized : Frac)
    (normalization : scaling_factor) : double_components :=
  let integral := (apply_scaling non_normalized normalization).trunc
  let remainder := non_normalized.sub (unapply_scaling (Frac.ofInt integral) normalization)
  let prec_power_of_10 := powers_of_10 precision
  let account_for_precision := update_normalization normalization prec_power_of_10
  let scaled_remainder := apply_scaling remainder account_for_precision
  if precision = 0 then
    let integral := integral + (if Frac.half ≤ scaled_remainder then 1 else 0)
    let integral :=
      if scaled_remainder.beq Frac.half then integral - integral % 2 else integral
    ⟨integral, 0, negative⟩
  else
    let fractional := scaled_remainder.trunc
    let scaled_remainder := scaled_remainder.sub (Frac.ofInt fractional)
    let fractional := fractional + (if Frac.half ≤ scaled_remainder then 1 else 0)
    let fractional :=
      if scaled_remainder.beq Frac.half then fractional - fractional % 2 else fractional
    if prec_power_of_10 ≤ Frac.ofInt fractional then ⟨integral + 1, 0, negative⟩
    else ⟨integral, fractional, negative⟩

/-! ## Flags and generic helpers of the interpreter -/

def FLAGS_ZEROPAD : Nat := 1
def FLAGS_LEFT : Nat := 2
def FLAGS_PLUS : Nat := 4
def FLAGS_SPACE : Nat := 8
def FLAGS_HASH : Nat := 16
def FLAGS_UPPERCASE : Nat := 32
def FLAGS_CHAR : Nat := 64
def FLAGS_SHORT : Nat := 128
def FLAGS_LONG : Nat := 256
def FLAGS_LONG_LONG : Nat := 512
def FLAGS_PRECISION : Nat := 1024
def FLAGS_ADAPT_EXP : Nat := 2048
def FLAGS_POINTER : Nat := 4096

/-- The test `flags & f`, as a boolean. -/
def hasFlag (flags f : Nat) : Bool := flags &&& f != 0

/-- The update `flags &= ~f`: since `flags &&& f` is a bitwise subset of `flags`,
subtracting it clears exactly the bits of `f`. -/
def clearFlag (flags f : Nat) : Nat := flags - (flags &&& f)

example : clearFlag 19 FLAGS_HASH = 3 := by decide
example : clearFlag 3 FLAGS_HASH = 3 := by decide

def PRINTF_NTOA_BUFFER_SIZE : Nat := 32
def PRINTF_FTOA_BUFFER_SIZE : Nat := 32

/-- Model of `_out_rev` (lines 260–284) viewed as the list of characters it sends to
the sink: space padding, the scratch buffer reversed, then right padding when
left-justifying.  (With `FLAGS_LEFT` the first padding loop is skipped, so
`idx - start_idx` is exactly `buf.length` when the second loop starts.) -/
def out_rev (buf : List Char) (width flags : Nat) : List Char :=
  let pre :=
    if ¬ hasFlag flags FLAGS_LEFT ∧ ¬ hasFlag flags FLAGS_ZEROPAD then
      List.replicate (width - buf.length) ' '
    else []
  let post := if hasFlag flags FLAGS_LEFT then List.replicate (width - buf.length) ' ' else []
  pre ++ buf.reverse ++ post

/-- The digit-emission do-while loop of `_ntoa` (lines 378–382), with the
remaining buffer capacity (`PRINTF_NTOA_BUFFER_SIZE - len`) as fuel. -/
def ntoa_digits (value : Nat) (base : Nat) (upper : Bool) : Nat → List Char
  | 0 => []
  | lenLeft+1 =>
    let digit := value % base
    let c :=
      if digit < 10 then Char.ofNat ('0'.toNat + digit)
      else Char.ofNat ((if upper then 'A'.toNat else 'a'.toNat) + digit - 10)
    if value / base = 0 then [c] else c :: ntoa_digits (value / base) base upper lenLeft

example : ntoa_digits 255 16 false 32 = ['f', 'f'] := by decide
example : ntoa_digits 42 10 false 32 = ['2', '4'] := by decide

/-- Model of `_ntoa_format` (lines 288–354).  The scratch buffer is the accumulated
list (least-significant digit first); `width` is mutated by the C code and
the mutated value flows into the hash handling and `_out_rev`. -/
def ntoa_format (buf : List Char) (negative : Bool) (base : Nat)
    (precision width flags : Nat) : List Char :=
  let unpadded_len := buf.length
  let width :=
    if ¬ hasFlag flags FLAGS_LEFT ∧ width ≠ 0 ∧ hasFlag flags FLAGS_ZEROPAD ∧
        (negative ∨ hasFlag flags FLAGS_PLUS ∨ hasFlag flags FLAGS_SPACE) then
      width - 1
    else width
  let buf :=
    if ¬ hasFlag flags FLAGS_LEFT ∧ hasFlag flags FLAGS_ZEROPAD then
      buf ++ List.replicate (min width PRINTF_NTOA_BUFFER_SIZE - buf.length) '0'
    else buf
  let buf := buf ++ List.replicate (min precision PRINTF_NTOA_BUFFER_SIZE - buf.length) '0'
  let flags :=
    if base = 8 ∧ buf.length > unpadded_len then clearFlag flags FLAGS_HASH else flags
  let buf :=
    if hasFlag flags (FLAGS_HASH ||| FLAGS_POINTER) then
      let buf :=
        if ¬ hasFlag flags FLAGS_PRECISION ∧ buf.length ≠ 0 ∧
            (buf.length = precision ∨ buf.length = width) then
          let buf := if unpadded_len < buf.length then buf.dropLast else buf
          if buf.length ≠ 0 ∧ base = 16 ∧ unpadded_len < buf.length then buf.dropLast else buf
        else buf
      let buf :=
        if base = 16 ∧ ¬ hasFlag flags FLAGS_UPPERCASE ∧
            buf.length < PRINTF_NTOA_BUFFER_SIZE then buf ++ ['x']
        else if base = 16 ∧ hasFlag flags FLAGS_UPPERCASE ∧
            buf.length < PRINTF_NTOA_BUFFER_SIZE then buf ++ ['X']
        else if base = 2 ∧ buf.length < PRINTF_NTOA_BUFFER_SIZE then buf ++ ['b']
        else buf
      if buf.length < PRINTF_NTOA_BUFFER_SIZE then buf ++ ['0'] else buf
    else buf
  let buf :=
    if buf.length < PRINTF_NTOA_BUFFER_SIZE then
      if negative then buf ++ ['-']
      else if hasFlag flags FLAGS_PLUS then buf ++ ['+']
      else if hasFlag flags FLAGS_SPACE then buf ++ [' ']
      else buf
    else buf
  out_rev buf width flags

/-- Model of `_ntoa` (lines 358–386); `value` is the already-unsigned magnitude in
`NTOA_VALUE_TYPE` (`unsigned long long`). -/
def ntoa (value : Nat) (negative : Bool) (base : Nat) (precision width flags : Nat) :
    List Char :=
  if value = 0 then
    if ¬ hasFlag flags FLAGS_PRECISION then
      ntoa_format ['0'] negative base precision width (clearFlag flags FLAGS_HASH)
    else if base = 16 then
      ntoa_format [] negative base precision width (clearFlag flags FLAGS_HASH)
    else ntoa_format [] negative base precision width flags
  else
    ntoa_format (ntoa_digits value base (hasFlag flags FLAGS_UPPERCASE) PRINTF_NTOA_BUFFER_SIZE)
      negative base precision width flags

/-- The macro `NTOA_ABS(x)` for a 64-bit signed argument: `(x > 0) ? (unsigned long
long)x : -((unsigned long long)x)`, with unsigned arithmetic modulo `2^64`. -/
def ntoa_abs (x : Int) : Nat :=
  if x > 0 then (x % (2 ^ 64 : Int)).toNat
  else (2 ^ 64 - (x % (2 ^ 64 : Int)).toNat) % 2 ^ 64

example : ntoa_abs (-(2 ^ 63)) = 2 ^ 63 := by decide
example : ntoa_abs (-42) = 42 := by decide
example : ntoa_abs 0 = 0 := by decide
example : ntoa_abs 42 = 42 := by decide

-- sanity: the §8 spec examples for integers
example : ntoa 42 true 10 0 5 FLAGS_ZEROPAD = "-0042".toList := by decide
example : ntoa 42 false 10 0 5 FLAGS_ZEROPAD = "00042".toList := by decide
example : ntoa 255 false 16 0 0 0 = "ff".toList := by decide
example : ntoa 255 false 16 0 0 FLAGS_HASH = "0xff".toList := by decide
example : ntoa 0 false 16 0 0 FLAGS_HASH = "0".toList := by decide

/-! ## Floating-point output (`sprint_*`, lines 524–782) -/

def UINT32_WRAP : Nat := 4294967296

/-- Decrement of an `unsigned int`, wrapping at zero (the `--count` /
`count--` arithmetic of `sprint_broken_up_decimal`). -/
def udec32 (c : Nat) : Nat := if c = 0 then UINT32_WRAP - 1 else c - 1

/-- The `%g` trailing-zero stripping loop (lines 536–543).  The C loop runs
under the guard `fractional > 0` and terminates because a positive
`int_fast64_t` has at most 19 decimal digits; fuel 64 strictly exceeds that
bound, so the fuelled recursion equals the loop. -/
def strip_zeros (fractional : Int) (count : Nat) : Nat → Int × Nat
  | 0 => (fractional, count)
  | fuel+1 =>
    if fractional.tmod 10 = 0 then strip_zeros (fractional.tdiv 10) (udec32 count) fuel
    else (fractional, count)

/-- The fractional-digit do-while loop (lines 551–557): `--count` then emit
`'0' + fractional % 10`, until the value is exhausted or the scratch buffer
(whose remaining capacity is the fuel) is full. -/
def frac_digits (fractional : Int) (count : Nat) : Nat → List Char × Nat
  | 0 => ([], count)
  | lenLeft+1 =>
    let count := udec32 count
    let c := Char.ofNat ('0'.toNat + (fractional.tmod 10).toNat)
    if fractional.tdiv 10 = 0 then ([c], count)
    else
      let r := frac_digits (fractional.tdiv 10) count lenLeft
      (c :: r.1, r.2)

/-- The integer-part digit loop (lines 577–582), fuel = remaining capacity. -/
def int_digits (integral : Int) : Nat → List Char
  | 0 => []
  | lenLeft+1 =>
    let c := Char.ofNat ('0'.toNat + (integral.tmod 10).toNat)
    if integral.tdiv 10 = 0 then [c] else c :: int_digits (integral.tdiv 10) lenLeft

/-- Model of `sprint_broken_up_decimal` (lines 524–607). -/
def sprint_broken_up_decimal (number_ : double_components) (precision width flags : Nat)
    (buf : List Char) : List Char :=
  let buf :=
    if precision ≠ 0 then
      let count := precision
      let fc :=
        if hasFlag flags FLAGS_ADAPT_EXP ∧ ¬ hasFlag flags FLAGS_HASH ∧
            number_.fractional > 0 then
          strip_zeros number_.fractional count 64
        else (number_.fractional, count)
      let fractional := fc.1
      let count := fc.2
      if fractional > 0 ∨ ¬ hasFlag flags FLAGS_ADAPT_EXP ∨ hasFlag flags FLAGS_HASH then
        let dc := frac_digits fractional count (PRINTF_FTOA_BUFFER_SIZE - buf.length)
        let buf := buf ++ dc.1
        let count := dc.2
        let buf := buf ++ List.replicate (min (PRINTF_FTOA_BUFFER_SIZE - buf.length) count) '0'
        if buf.length < PRINTF_FTOA_BUFFER_SIZE then buf ++ ['.'] else buf
      else buf
    else
      if hasFlag flags FLAGS_HASH ∧ buf.length < PRINTF_FTOA_BUFFER_SIZE then buf ++ ['.']
      else buf
  let buf := buf ++ int_digits number_.integral (PRINTF_FTOA_BUFFER_SIZE - buf.length)
  let width :=
    if ¬ hasFlag flags FLAGS_LEFT ∧ hasFlag flags FLAGS_ZEROPAD ∧ width ≠ 0 ∧
        (number_.is_negative ∨ hasFlag flags FLAGS_PLUS ∨ hasFlag flags FLAGS_SPACE) then
      width - 1
    else width
  let buf :=
    if ¬ hasFlag flags FLAGS_LEFT ∧ hasFlag flags FLAGS_ZEROPAD then
      buf ++ List.replicate (min width PRINTF_FTOA_BUFFER_SIZE - buf.length) '0'
    else buf
  let buf :=
    if buf.length < PRINTF_FTOA_BUFFER_SIZE then
      if number_.is_negative then buf ++ ['-']
      else if hasFlag flags FLAGS_PLUS then buf ++ ['+']
      else if hasFlag flags FLAGS_SPACE then buf ++ [' ']
      else buf
    else buf
  out_rev buf width flags

/-- Model of `sprint_decimal_number` (lines 610–614). -/
def sprint_decimal_number (number : Frac) (precision width flags : Nat) (buf : List Char) :
    List Char :=
  sprint_broken_up_decimal (get_components number precision) precision width flags buf

/-! The decimal literals of the exponent-estimation code (lines 641–648),
as exact rationals. -/

def EXP_C1 : Frac := ⟨1760912590558, 10 ^ 13⟩
def EXP_LOG10_2 : Frac := ⟨301029995663981, 10 ^ 15⟩
def EXP_C3 : Frac := ⟨289529654602168, 10 ^ 15⟩
def EXP_LOG2_10 : Frac := ⟨3321928094887362, 10 ^ 15⟩
def EXP_LN10 : Frac := ⟨2302585092994046, 10 ^ 15⟩
def EXP_LN2 : Frac := ⟨6931471805599453, 10 ^ 16⟩
def FRAC_1_5 : Frac := ⟨3, 2⟩

def PRINTF_MAX_PRECOMPUTED_POWER_OF_10 : Nat := 18

/-- Model of `sprint_exponential_number` (lines 618–740).  For `abs_number == 0` the
C code leaves `abs_exp10_covered_by_powers_table` and
`normalization.raw_factor` uninitialised but never reads them (`exp10 = 0`
short-circuits both uses); the model fills in `true` and `1.0`. -/
def sprint_exponential_number (number : Frac) (precision width flags : Nat)
    (buf : List Char) : List Char :=
  let negative := decide (number < Frac.zero)
  let abs_number := if negative then number.neg else number
  let est : Int × Bool × Frac :=
    if abs_number.beq Frac.zero then (0, true, Frac.one)
    else
      let exp2 := get_exp2 abs_number
      let convF := abs_number.div (pow2 exp2)
      let exp10 := (((EXP_C1.add ((Frac.ofInt exp2).mul EXP_LOG10_2)).add
        ((convF.sub FRAC_1_5).mul EXP_C3))).trunc
      let exp2b := (((Frac.ofInt exp10).mul EXP_LOG2_10).add Frac.half).trunc
      let z := ((Frac.ofInt exp10).mul EXP_LN10).sub ((Frac.ofInt exp2b).mul EXP_LN2)
      let z2 := z.mul z
      let convF := (pow2 exp2b).mul
        (Frac.one.add (((Frac.ofInt 2).mul z).div
          (((Frac.ofInt 2).sub z).add
            (z2.div ((Frac.ofInt 6).add
              (z2.div ((Frac.ofInt 10).add (z2.div (Frac.ofInt 14)))))))))
      let ec :=
        if abs_number < convF then (exp10 - 1, convF.div (Frac.ofInt 10))
        else (exp10, convF)
      let exp10 := ec.1
      let convF := ec.2
      let covered :=
        decide (PRINTF_ABS exp10 < (PRINTF_MAX_PRECOMPUTED_POWER_OF_10 : Int))
      (exp10, covered, if covered then powers_of_10 (PRINTF_ABS exp10).toNat else convF)
  let exp10 := est.1
  let fp :=
    if hasFlag flags FLAGS_ADAPT_EXP then
      let required_significant_digits : Int := if precision = 0 then 1 else precision
      let fall_back := decide (exp10 ≥ -4 ∧ exp10 < required_significant_digits)
      let precision_ : Int :=
        if fall_back then (precision : Int) - 1 - exp10 else (precision : Int) - 1
      (fall_back, (if precision_ > 0 then precision_.toNat else 0), flags ||| FLAGS_PRECISION)
    else (false, precision, flags)
  let fall_back_to_decimal_only_mode := fp.1
  let precision := fp.2.1
  let flags := fp.2.2
  let normalization : scaling_factor := ⟨est.2.2, decide (exp10 < 0) && est.2.1⟩
  let should_skip_normalization := fall_back_to_decimal_only_mode || decide (exp10 = 0)
  let decimal_part_components :=
    if should_skip_normalization then
      get_components (if negative then abs_number.neg else abs_number) precision
    else get_normalized_components negative precision abs_number normalization
  let rp : Int × Nat × double_components :=
    if fall_back_to_decimal_only_mode then
      if hasFlag flags FLAGS_ADAPT_EXP ∧ exp10 ≥ -1 ∧
          (Frac.ofInt decimal_part_components.integral).beq
            (powers_of_10 (exp10 + 1).toNat) then
        (exp10 + 1, udec32 precision, decimal_part_components)
      else (exp10, precision, decimal_part_components)
    else
      if decimal_part_components.integral ≥ 10 then
        (exp10 + 1, precision, { decimal_part_components with integral := 1, fractional := 0 })
      else (exp10, precision, decimal_part_components)
  let exp10 := rp.1
  let precision := rp.2.1
  let decimal_part_components := rp.2.2
  let exp10_part_width : Nat :=
    if fall_back_to_decimal_only_mode then 0
    else if exp10 < 100 ∧ exp10 > -100 then 4 else 5
  let decimal_part_width : Nat :=
    if hasFlag flags FLAGS_LEFT ∧ exp10_part_width ≠ 0 then 0
    else if width > exp10_part_width then width - exp10_part_width else 0
  let s := sprint_broken_up_decimal decimal_part_components precision decimal_part_width flags buf
  if fall_back_to_decimal_only_mode then s
  else
    let s := s ++ [if hasFlag flags FLAGS_UPPERCASE then 'E' else 'e']
    let s := s ++ ntoa (ntoa_abs exp10) (decide (exp10 < 0)) 10 0 (exp10_part_width - 1)
      (FLAGS_ZEROPAD ||| FLAGS_PLUS)
    if hasFlag flags FLAGS_LEFT then s ++ List.replicate (width - s.length) ' ' else s

/-- The constant `DBL_MAX` = `(2^53 - 1) * 2^971`, written as a numeral because the
kernel does not accelerate `Nat.pow` with large exponents. -/
def DBL_MAX : Frac :=
  ⟨179769313486231570814527423731704356798070567525844996598917476803157260780028538760589558632766878171540458953514382464234321326889464182768467546703537516986049910576551282076245490090389328944075868508455133942304583236903222948165808559332123348274797826204144723168738177180919299881250404026184124858368, 1⟩

example : DBL_MAX.num = (2 ^ 53 - 1) * 2 ^ 971 := by simp only [DBL_MAX]; norm_num

/-- The constant `PRINTF_FLOAT_NOTATION_THRESHOLD` = `1e9`
(`PRINTF_MAX_INTEGRAL_DIGITS_FOR_DECIMAL = 9`). -/
def PRINTF_FLOAT_NOTATION_THRESHOLD : Frac := ⟨10 ^ 9, 1⟩

def PRINTF_DEFAULT_FLOAT_PRECISION : Nat := 6

def PRINTF_MAX_SUPPORTED_PRECISION : Nat := 17

/-- Model of `sprint_floating_point` (lines 744–782).  The NaN test `value != value`
is dead in the rational model (no NaN exists), exactly as for finite
doubles. -/
def sprint_floating_point (value : Frac) (precision width flags : Nat)
    (prefer_exponential : Bool) : List Char :=
  if value < DBL_MAX.neg then out_rev "fni-".toList width flags
  else if DBL_MAX < value then
    out_rev (if hasFlag flags FLAGS_PLUS then "fni+".toList else "fni".toList) width flags
  else if ¬ prefer_exponential ∧
      (PRINTF_FLOAT_NOTATION_THRESHOLD < value ∨
        value < PRINTF_FLOAT_NOTATION_THRESHOLD.neg) then
    sprint_exponential_number value precision width flags []
  else
    let precision :=
      if ¬ hasFlag flags FLAGS_PRECISION then PRINTF_DEFAULT_FLOAT_PRECISION else precision
    let excess := min (precision - PRINTF_MAX_SUPPORTED_PRECISION) PRINTF_FTOA_BUFFER_SIZE
    let buf := List.replicate excess '0'
    let precision := precision - excess
    if prefer_exponential then sprint_exponential_number value precision width flags buf
    else sprint_decimal_number value precision width flags buf

-- sanity: the simulated claim cases
example : sprint_floating_point ⟨1, 200⟩ 2 0 FLAGS_PRECISION false = "0.01".toList := by decide
example : sprint_floating_point ⟨100000, 1⟩ 0 0 FLAGS_ADAPT_EXP true = "100000".toList := by
  decide
example : sprint_floating_point ⟨1000000, 1⟩ 0 0 FLAGS_ADAPT_EXP true = "1000000".toList := by
  decide
example : sprint_floating_point ⟨314159, 1000⟩ 0 0 FLAGS_ADAPT_EXP true = "314.159".toList := by
  decide
example : sprint_floating_point ⟨314159, 1000⟩ 0 0 0 true = "3.141590e+02".toList := by decide
example : sprint_floating_point ⟨1000000, 1⟩ 0 0 0 true = "1.000000e+06".toList := by decide
example :
    sprint_floating_point ⟨123456789, 1⟩ 0 0 FLAGS_ADAPT_EXP true = "1.23457e+08".toList := by
  decide

/-! ## The variadic argument stream and the format interpreter
(`_vsnprintf`, lines 787–1079) -/

/-- One variadic argument, tagged with the C type the call site supplies.
`i32` is `int` (including promoted `char`/`short`), `i64` is `long`/`long
long`, `u32`/`u64` their unsigned counterparts, `dbl` a `double`, `str` a
`char*` (with `none` for `NULL`), `ptr` a `void*` (as an address). -/
inductive Arg where
  | i32 : Int → Arg
  | i64 : Int → Arg
  | u32 : Nat → Arg
  | u64 : Nat → Arg
  | dbl : Frac → Arg
  | str : Option (List Char) → Arg
  | ptr : Nat → Arg
deriving Repr, DecidableEq

/-- Model of `va_arg(va, int)`: pop the next argument.  A type mismatch or an
exhausted list is undefined behaviour in C; the model yields `0`. -/
def va_i32 : List Arg → Int × List Arg
  | Arg.i32 v :: r => (v, r)
  | _ :: r => (0, r)
  | [] => (0, [])

/-- Model of `va_arg(va, long)` / `va_arg(va, long long)` (both 64-bit here). -/
def va_i64 : List Arg → Int × List Arg
  | Arg.i64 v :: r => (v, r)
  | _ :: r => (0, r)
  | [] => (0, [])

def va_u32 : List Arg → Nat × List Arg
  | Arg.u32 v :: r => (v, r)
  | _ :: r => (0, r)
  | [] => (0, [])

def va_u64 : List Arg → Nat × List Arg
  | Arg.u64 v :: r => (v, r)
  | _ :: r => (0, r)
  | [] => (0, [])

def va_dbl : List Arg → Frac × List Arg
  | Arg.dbl v :: r => (v, r)
  | _ :: r => (Frac.zero, r)
  | [] => (Frac.zero, [])

def va_str : List Arg → Option (List Char) × List Arg
  | Arg.str v :: r => (v, r)
  | _ :: r => (none, r)
  | [] => (none, [])

def va_ptr : List Arg → Nat × List Arg
  | Arg.ptr v :: r => (v, r)
  | _ :: r => (0, r)
  | [] => (0, [])

/-- Model of `_is_digit` (lines 242–245). -/
def is_digit (c : Char) : Bool := '0' ≤ c && c ≤ '9'

/-- Model of `_atoi` (lines 249–256): the accumulator is an `unsigned int`. -/
def atoi : List Char → Nat → Nat × List Char
  | c :: r, i =>
    if is_digit c then atoi r ((i * 10 + (c.toNat - '0'.toNat)) % UINT32_WRAP)
    else (i, c :: r)
  | [], i => (i, [])

/-- The flag-scanning do-while loop (lines 812–822). -/
def parse_flags : List Char → Nat → Nat × List Char
  | [], flags => (flags, [])
  | c :: r, flags =>
    if c = '0' then parse_flags r (flags ||| FLAGS_ZEROPAD)
    else if c = '-' then parse_flags r (flags ||| FLAGS_LEFT)
    else if c = '+' then parse_flags r (flags ||| FLAGS_PLUS)
    else if c = ' ' then parse_flags r (flags ||| FLAGS_SPACE)
    else if c = '#' then parse_flags r (flags ||| FLAGS_HASH)
    else (flags, c :: r)

/-- The width field (lines 824–839): literal digits, or a `*` argument whose
negative value forces left-justification; `(unsigned int)` casts wrap. -/
def parse_width (l : List Char) (flags : Nat) (args : List Arg) :
    Nat × Nat × List Char × List Arg :=
  match l with
  | [] => (0, flags, [], args)
  | c :: r =>
    if is_digit c then
      let a := atoi (c :: r) 0
      (a.1, flags, a.2, args)
    else if c = '*' then
      let w := va_i32 args
      if w.1 < 0 then (((-w.1 % (UINT32_WRAP : Int)).toNat), flags ||| FLAGS_LEFT, r, w.2)
      else ((w.1 % (UINT32_WRAP : Int)).toNat, flags, r, w.2)
    else (0, flags, c :: r, args)

/-- The precision field (lines 841–854). -/
def parse_precision (l : List Char) (flags : Nat) (args : List Arg) :
    Nat × Nat × List Char × List Arg :=
  match l with
  | [] => (0, flags, [], args)
  | c :: r =>
    if c = '.' then
      let flags := flags ||| FLAGS_PRECISION
      if is_digit (r.headD (Char.ofNat 0)) then
        let a := atoi r 0
        (a.1, flags, a.2, args)
      else if r.headD (Char.ofNat 0) = '*' then
        let p := va_i32 args
        ((if p.1 > 0 then p.1.toNat else 0), flags, r.tail, p.2)
      else (0, flags, r, args)
    else (0, flags, c :: r, args)

/-- The length field (lines 856–890).  On the 64-bit UNIX port
`sizeof(ptrdiff_t) = sizeof(intmax_t) = sizeof(size_t) = sizeof(long)`, so
`t`, `j` and `z` all select `FLAGS_LONG`. -/
def parse_length (l : List Char) (flags : Nat) : Nat × List Char :=
  match l with
  | [] => (flags, [])
  | c :: r =>
    if c = 'l' then
      if r.headD (Char.ofNat 0) = 'l' then (flags ||| FLAGS_LONG ||| FLAGS_LONG_LONG, r.tail)
      else (flags ||| FLAGS_LONG, r)
    else if c = 'h' then
      if r.headD (Char.ofNat 0) = 'h' then (flags ||| FLAGS_SHORT ||| FLAGS_CHAR, r.tail)
      else (flags ||| FLAGS_SHORT, r)
    else if c = 't' then (flags ||| FLAGS_LONG, r)
    else if c = 'j' then (flags ||| FLAGS_LONG, r)
    else if c = 'z' then (flags ||| FLAGS_LONG, r)
    else (flags, c :: r)

/-- Sign extension of the low `w` bits (the `(signed char)` / `(short int)`
casts of lines 945). -/
def sext (w : Nat) (v : Int) : Int := (v + 2 ^ (w - 1)) % (2 ^ w : Int) - 2 ^ (w - 1)

example : sext 8 200 = -56 := by decide
example : sext 8 64 = 64 := by decide

/-- The `d i u x X o b` specifier case (lines 894–966). -/
def conv_num (c : Char) (flags width precision : Nat) (args : List Arg) :
    List Char × List Arg :=
  let base : Nat :=
    if c = 'x' ∨ c = 'X' then 16 else if c = 'o' then 8 else if c = 'b' then 2 else 10
  let flags :=
    if c = 'x' ∨ c = 'X' ∨ c = 'o' ∨ c = 'b' then flags else clearFlag flags FLAGS_HASH
  let flags := if c = 'X' then flags ||| FLAGS_UPPERCASE else flags
  let flags :=
    if c ≠ 'i' ∧ c ≠ 'd' then clearFlag flags (FLAGS_PLUS ||| FLAGS_SPACE) else flags
  let flags := if hasFlag flags FLAGS_PRECISION then clearFlag flags FLAGS_ZEROPAD else flags
  if c = 'i' ∨ c = 'd' then
    if hasFlag flags FLAGS_LONG_LONG then
      let v := va_i64 args
      (ntoa (ntoa_abs v.1) (decide (v.1 < 0)) base precision width flags, v.2)
    else if hasFlag flags FLAGS_LONG then
      let v := va_i64 args
      (ntoa (ntoa_abs v.1) (decide (v.1 < 0)) base precision width flags, v.2)
    else
      let v0 := va_i32 args
      let v :=
        if hasFlag flags FLAGS_CHAR then sext 8 v0.1
        else if hasFlag flags FLAGS_SHORT then sext 16 v0.1
        else v0.1
      (ntoa (ntoa_abs v) (decide (v < 0)) base precision width flags, v0.2)
  else
    if hasFlag flags FLAGS_LONG_LONG then
      let v := va_u64 args
      (ntoa v.1 false base precision width flags, v.2)
    else if hasFlag flags FLAGS_LONG then
      let v := va_u64 args
      (ntoa v.1 false base precision width flags, v.2)
    else
      let v0 := va_u32 args
      let v :=
        if hasFlag flags FLAGS_CHAR then v0.1 % 256
        else if hasFlag flags FLAGS_SHORT then v0.1 % 65536
        else v0.1
      (ntoa v false base precision width flags, v0.2)

/-- The `c` specifier case (lines 986–1004). -/
def conv_c (width flags : Nat) (args : List Arg) : List Char × List Arg :=
  let v := va_i32 args
  let ch := Char.ofNat ((v.1 % (256 : Int)).toNat)
  let pre := if ¬ hasFlag flags FLAGS_LEFT then List.replicate (width - 1) ' ' else []
  let post := if hasFlag flags FLAGS_LEFT then List.replicate (width - 1) ' ' else []
  (pre ++ [ch] ++ post, v.2)

/-- Model of `_strnlen_s` (lines 232–237) on a NUL-free model string. -/
def strnlen_s (s : List Char) (maxsize : Nat) : Nat := min s.length maxsize

/-- The `s` specifier case (lines 1006–1035).  A `NULL` argument emits the
reversed literal `")llun("` (i.e. `"(null)"`) through `_out_rev`. -/
def conv_s (p : Option (List Char)) (precision width flags : Nat) : List Char :=
  match p with
  | none => out_rev ")llun(".toList width flags
  | some s =>
    let l0 := strnlen_s s (if precision = 0 then s.length else precision)
    let l := if hasFlag flags FLAGS_PRECISION then min l0 precision else l0
    let pre := if ¬ hasFlag flags FLAGS_LEFT then List.replicate (width - l) ' ' else []
    let body := s.take (if hasFlag flags FLAGS_PRECISION then precision else s.length)
    let post := if hasFlag flags FLAGS_LEFT then List.replicate (width - l) ' ' else []
    pre ++ body ++ post

/-- The `p` specifier case (lines 1037–1060): `width` is forced to
`sizeof(void*) * 2 + 2 = 18`, zero-padding and the pointer flag are set, and
a null pointer emits the reversed literal `")lin("` (i.e. `"(nil)"`).
`uintptr_t` is 64-bit, so the `is_ll` branch is taken. -/
def conv_p (value : Nat) (precision flags : Nat) : List Char :=
  let width : Nat := 18
  let flags := flags ||| FLAGS_ZEROPAD ||| FLAGS_POINTER
  if value = 0 then out_rev ")lin(".toList width flags
  else ntoa value false 16 precision width flags

/-- The specifier-dispatch switch (lines 893–1071), producing the emitted
characters of one conversion and the remaining argument stream.  The default
case emits the unrecognized character itself — the consumed `%` is *not*
re-emitted — and consumes no argument. -/
def conv_spec (c : Char) (flags width precision : Nat) (args : List Arg) :
    List Char × List Arg :=
  if c = 'd' ∨ c = 'i' ∨ c = 'u' ∨ c = 'x' ∨ c = 'X' ∨ c = 'o' ∨ c = 'b' then
    conv_num c flags width precision args
  else if c = 'f' ∨ c = 'F' then
    let flags := if c = 'F' then flags ||| FLAGS_UPPERCASE else flags
    let v := va_dbl args
    (sprint_floating_point v.1 precision width flags false, v.2)
  else if c = 'e' ∨ c = 'E' ∨ c = 'g' ∨ c = 'G' then
    let flags := if c = 'g' ∨ c = 'G' then flags ||| FLAGS_ADAPT_EXP else flags
    let flags := if c = 'E' ∨ c = 'G' then flags ||| FLAGS_UPPERCASE else flags
    let v := va_dbl args
    (sprint_floating_point v.1 precision width flags true, v.2)
  else if c = 'c' then conv_c width flags args
  else if c = 's' then
    let p := va_str args
    (conv_s p.1 precision width flags, p.2)
  else if c = 'p' then
    let v := va_ptr args
    (conv_p v.1 precision flags, v.2)
  else if c = '%' then (['%'], args)
  else ([c], args)

/-- One full `%…` token (the `%` already consumed): flags, width, precision,
length, then the specifier dispatch.  Returns the emitted characters, the
remaining format and the remaining arguments.  When the format ends inside
the token, the C code's specifier switch reads the terminating NUL, whose
default case emits it (and the scan then runs past the terminator —
undefined behaviour in C; the model stops). -/
def parse_token (l : List Char) (args : List Arg) : List Char × List Char × List Arg :=
  let f := parse_flags l 0
  let w := parse_width f.2 f.1 args
  let p := parse_precision w.2.2.1 w.2.1 w.2.2.2
  let g := parse_length p.2.2.1 p.2.1
  match g.2 with
  | [] => ([Char.ofNat 0], [], p.2.2.2)
  | c :: rest =>
    let d := conv_spec c g.1 w.1 p.1 p.2.2.2
    (d.1, rest, d.2)

theorem parse_flags_length (l : List Char) (flags : Nat) :
    (parse_flags l flags).2.length ≤ l.length := by
  induction l generalizing flags with
  | nil => simp [parse_flags]
  | cons c r ih =>
    simp only [parse_flags]
    split_ifs <;> first
      | exact Nat.le_trans (ih _) (by simp)
      | simp

theorem atoi_length (l : List Char) (i : Nat) : (atoi l i).2.length ≤ l.length := by
  induction l generalizing i with
  | nil => simp [atoi]
  | cons c r ih =>
    unfold atoi
    split
    · exact Nat.le_trans (ih _) (by simp)
    · simp

theorem parse_width_length (l : List Char) (flags : Nat) (args : List Arg) :
    (parse_width l flags args).2.2.1.length ≤ l.length := by
  cases l with
  | nil => simp [parse_width]
  | cons c r =>
    simp only [parse_width]
    split_ifs
    · exact atoi_length (c :: r) 0
    · simp
    · simp
    · simp

theorem parse_precision_length (l : List Char) (flags : Nat) (args : List Arg) :
    (parse_precision l flags args).2.2.1.length ≤ l.length := by
  cases l with
  | nil => simp [parse_precision]
  | cons c r =>
    simp only [parse_precision]
    split_ifs <;>
      first
        | exact Nat.le_trans (atoi_length r 0) (by simp)
        | (simp [List.length_tail] <;> omega)

theorem parse_length_length (l : List Char) (flags : Nat) :
    (parse_length l flags).2.length ≤ l.length := by
  cases l with
  | nil => simp [parse_length]
  | cons c r =>
    simp only [parse_length]
    split_ifs <;>
      first
        | (simp [List.length_tail] <;> omega)

theorem parse_token_length (l : List Char) (args : List Arg) :
    (parse_token l args).2.1.length ≤ l.length := by
  have h1 := parse_flags_length l 0
  have h2 := parse_width_length (parse_flags l 0).2 (parse_flags l 0).1 args
  have h3 := parse_precision_length (parse_width (parse_flags l 0).2 (parse_flags l 0).1 args).2.2.1
    (parse_width (parse_flags l 0).2 (parse_flags l 0).1 args).2.1
    (parse_width (parse_flags l 0).2 (parse_flags l 0).1 args).2.2.2
  have h4 := parse_length_length
    (parse_precision (parse_width (parse_flags l 0).2 (parse_flags l 0).1 args).2.2.1
      (parse_width (parse_flags l 0).2 (parse_flags l 0).1 args).2.1
      (parse_width (parse_flags l 0).2 (parse_flags l 0).1 args).2.2.2).2.2.1
    (parse_precision (parse_width (parse_flags l 0).2 (parse_flags l 0).1 args).2.2.1
      (parse_width (parse_flags l 0).2 (parse_flags l 0).1 args).2.1
      (parse_width (parse_flags l 0).2 (parse_flags l 0).1 args).2.2.2).2.1
  simp only [parse_token]
  split
  · simp
  · rename_i c rest heq
    have hlen := congrArg List.length heq
    simp only [List.length_cons] at hlen
    simp only [List.length_cons]
    omega

/-- The scan loop of `_vsnprintf` (lines 797–1072) as the sequence of
characters handed to the sink (`out` is called with `idx` increasing by one
per character, and nothing the sink does feeds back into the scan, so the
emitted character sequence is sink-independent).  Structural fuel: every
iteration consumes at least one format character, so `fmt.length + 1`
suffices and the function below is exactly the loop. -/
def format_go : Nat → List Char → List Arg → List Char
  | 0, _, _ => []
  | _+1, [], _ => []
  | fuel+1, c :: rest, args =>
    if c = '%' then
      let t := parse_token rest args
      t.1 ++ format_go fuel t.2.1 t.2.2
    else c :: format_go fuel rest args

def format_loop (fmt : List Char) (args : List Arg) : List Char :=
  format_go (fmt.length + 1) fmt args

theorem format_go_fuel (fuel1 fuel2 : Nat) (fmt : List Char) (args : List Arg)
    (h1 : fmt.length < fuel1) (h2 : fmt.length < fuel2) :
    format_go fuel1 fmt args = format_go fuel2 fmt args := by
  induction fuel1 generalizing fuel2 fmt args with
  | zero => omega
  | succ k ih =>
    cases fuel2 with
    | zero => omega
    | succ m =>
      cases fmt with
      | nil => rfl
      | cons c rest =>
        simp only [List.length_cons] at h1 h2
        by_cases hc : c = '%'
        · subst hc
          have hl := parse_token_length rest args
          simp only [format_go, reduceIte]
          exact congrArg _ (ih m (parse_token rest args).2.1 (parse_token rest args).2.2
            (by omega) (by omega))
        · simp only [format_go, if_neg hc]
          rw [ih m rest args (by omega) (by omega)]

-- sanity checks of the interpreter
example : format_loop "abc".toList [] = "abc".toList := by decide
example : format_loop "%d".toList [Arg.i32 42] = "42".toList := by decide
example : format_loop "%05d".toList [Arg.i32 (-42)] = "-0042".toList := by decide
example : format_loop "%05d".toList [Arg.i32 42] = "00042".toList := by decide
example : format_loop "%x".toList [Arg.u32 255] = "ff".toList := by decide
example : format_loop "%#x".toList [Arg.u32 255] = "0xff".toList := by decide
example : format_loop "%#x".toList [Arg.u32 0] = "0".toList := by decide
example : format_loop "%%".toList [] = "%".toList := by decide
example : format_loop "a%cb".toList [Arg.i32 88] = "aXb".toList := by decide
example : format_loop "%s".toList [Arg.str (some "hello".toList)] = "hello".toList := by decide
example : format_loop "%.2f".toList [Arg.dbl ⟨1, 200⟩] = "0.01".toList := by decide
example : format_loop "%g".toList [Arg.dbl ⟨100000, 1⟩] = "100000".toList := by decide
example : format_loop "%g".toList [Arg.dbl ⟨1000000, 1⟩] = "1000000".toList := by decide

/-! ## The buffer sink and the public entry points
(`_out_buffer` lines 193–198, `_vsnprintf` epilogue lines 1074–1078,
`utl_snprintf`/`utl_vsnprintf` lines 1108–1135) -/

/-- Model of `_out_buffer`: store the character at `idx` if `idx < maxlen`, silently
drop it otherwise.  (`List.set` out of range is a no-op; the snprintf caller
contract is `maxlen ≤ buffer.length`.) -/
def out_buffer (character : Char) (buffer : List Char) (idx maxlen : Nat) : List Char :=
  if idx < maxlen then buffer.set idx character else buffer

/-- The data-phase of one `_vsnprintf` run over the buffer sink: the scan
calls `out` once per character with `idx++`, so the buffer receives `s`
written at consecutive positions from `idx` on. -/
def write_from (buffer : List Char) (idx : Nat) (s : List Char) (maxlen : Nat) : List Char :=
  match s with
  | [] => buffer
  | c :: cs => write_from (out_buffer c buffer idx maxlen) (idx + 1) cs maxlen

/-- The character stream `_vsnprintf` hands to its sink (terminator write
excluded).  It does not depend on the sink, the buffer or `maxlen`. -/
def vsnprintf_chars (format : List Char) (args : List Arg) : List Char :=
  format_loop format args

/-- The return value `(int)idx` of `_vsnprintf` (line 1078): the number of
characters of the full logical output, excluding the terminating NUL. -/
def vsnprintf_ret (format : List Char) (args : List Arg) : Int :=
  ((vsnprintf_chars format args).length : Int)

/-- Final buffer content after `_vsnprintf` with the buffer sink: the data
writes, then the terminator write
`out((char)0, buffer, idx < maxlen ? idx : maxlen - 1U, maxlen)` (line 1075).
In C, for `maxlen = 0` the position `maxlen - 1U` wraps to `SIZE_MAX` and the
`idx < maxlen` guard of `_out_buffer` rejects it; with `Nat` subtraction the
position is `0` and the same guard `0 < 0` rejects it — no byte is written
either way. -/
def vsnprintf_buffer (b : List Char) (maxlen : Nat) (format : List Char) (args : List Arg) :
    List Char :=
  let s := vsnprintf_chars format args
  let d := write_from b 0 s maxlen
  out_buffer (Char.ofNat 0) d (if s.length < maxlen then s.length else maxlen - 1) maxlen

/-- Model of `utl_vsnprintf` → `_vsnprintf`: a NULL destination buffer switches the
sink to `_out_null` (lines 792–795), which performs no write; the return
value is unchanged.  The result pairs the returned count with the final
destination. -/
def utl_vsnprintf (buffer : Option (List Char)) (count : Nat) (format : List Char)
    (va : List Arg) : Int × Option (List Char) :=
  match buffer with
  | none => (vsnprintf_ret format va, none)
  | some b => (vsnprintf_ret format va, some (vsnprintf_buffer b count format va))

/-- Model of `utl_snprintf` (lines 1108–1115): packs its varargs and forwards to
`_vsnprintf` with the buffer sink. -/
def utl_snprintf (buffer : Option (List Char)) (count : Nat) (format : List Char)
    (va : List Arg) : Int × Option (List Char) :=
  utl_vsnprintf buffer count format va

theorem out_buffer_length (c : Char) (b : List Char) (i m : Nat) :
    (out_buffer c b i m).length = b.length := by
  unfold out_buffer
  split <;> simp

theorem write_from_length (s : List Char) (b : List Char) (i m : Nat) :
    (write_from b i s m).length = b.length := by
  induction s generalizing b i with
  | nil => rfl
  | cons c cs ih =>
    simp only [write_from]
    rw [ih, out_buffer_length]

/-- Positions at or beyond the capacity are never touched by the data phase. -/
theorem write_from_getElem?_ge (b : List Char) (idx : Nat) (s : List Char) (m j : Nat)
    (hj : m ≤ j) : (write_from b idx s m)[j]? = b[j]? := by
  induction s generalizing b idx with
  | nil => rfl
  | cons c cs ih =>
    simp only [write_from]
    rw [ih]
    unfold out_buffer
    split
    · rw [List.getElem?_set_ne (by omega)]
    · rfl

/-- Pointwise description of the data phase (for a buffer at least as long
as the capacity). -/
theorem write_from_getElem? (b : List Char) (idx : Nat) (s : List Char) (m j : Nat)
    (hm : m ≤ b.length) :
    (write_from b idx s m)[j]? =
      if idx ≤ j ∧ j - idx < s.length ∧ j < m then s[j - idx]? else b[j]? := by
  induction s generalizing b idx with
  | nil => simp [write_from]
  | cons c cs ih =>
    simp only [write_from]
    rw [ih _ _ (by rw [out_buffer_length]; exact hm)]
    by_cases hj : j = idx
    · subst hj
      rw [if_neg (by omega)]
      unfold out_buffer
      split
      · rename_i hlt
        rw [if_pos ⟨Nat.le_refl _, by simp, hlt⟩, Nat.sub_self,
          List.getElem?_set_self (by omega)]
        simp
      · rename_i hge
        rw [if_neg (by omega)]
    · by_cases hcond : idx + 1 ≤ j ∧ j - (idx + 1) < cs.length ∧ j < m
      · rw [if_pos hcond, if_pos ⟨by omega, by simp only [List.length_cons]; omega, hcond.2.2⟩]
        have hstep : j - idx = (j - (idx + 1)) + 1 := by omega
        rw [hstep, List.getElem?_cons_succ]
      · rw [if_neg hcond]
        have hout : (out_buffer c b idx m)[j]? = b[j]? := by
          unfold out_buffer
          split
          · rw [List.getElem?_set_ne (by omega)]
          · rfl
        rw [hout, if_neg (by simp only [List.length_cons]; omega)]

theorem write_from_zero (s : List Char) (b : List Char) (idx : Nat) :
    write_from b idx s 0 = b := by
  induction s generalizing idx with
  | nil => rfl
  | cons c cs ih =>
    simp only [write_from, out_buffer]
    rw [if_neg (by omega)]
    exact ih _

/-- Pointwise description of the whole buffer run on the written region
(`i < capacity` and `i` at most the logical length): position `i` holds the
terminator if `i` is the terminator position, else the `i`-th stream byte. -/
theorem vsnprintf_buffer_getElem?_written (f : List Char) (a : List Arg) (b : List Char)
    (c i : Nat) (hb : c ≤ b.length) (hic : i < c)
    (hil : i ≤ (vsnprintf_chars f a).length) :
    (vsnprintf_buffer b c f a)[i]? =
      if i = (if (vsnprintf_chars f a).length < c then (vsnprintf_chars f a).length else c - 1)
      then some (Char.ofNat 0) else (vsnprintf_chars f a)[i]? := by
  have hw := write_from_getElem? b 0 (vsnprintf_chars f a) c i hb
  simp only [vsnprintf_buffer, out_buffer]
  have htc : (if (vsnprintf_chars f a).length < c then (vsnprintf_chars f a).length
      else c - 1) < c := by
    split <;> omega
  rw [if_pos htc]
  by_cases hit :
      i = (if (vsnprintf_chars f a).length < c then (vsnprintf_chars f a).length else c - 1)
  · rw [if_pos hit, ← hit]
    rw [List.getElem?_set_self (by rw [write_from_length]; omega)]
  · rw [if_neg hit, List.getElem?_set_ne (fun h => hit h.symm), hw]
    have hlt : i < (vsnprintf_chars f a).length := by
      rcases Nat.lt_or_ge (vsnprintf_chars f a).length c with hcase | hcase
      · rw [if_pos hcase] at hit
        omega
      · omega
    rw [if_pos ⟨Nat.zero_le _, by omega, hic⟩, Nat.sub_zero]

/-- C1: the bounded-buffer entry point never stores a byte at a position at
or past the capacity (the original buffer content there survives), yet
returns the full logical length; concretely, `%s` of `"hello"` into a 4-byte
destination returns 5 and stores `h`, `e`, `l` plus a NUL terminator. -/
theorem snprintf_truncation (f : List Char) (a : List Arg) (b : List Char) (c n : Nat)
    (hn : c ≤ n) :
    (vsnprintf_buffer b c f a)[n]? = b[n]?
    ∧ vsnprintf_ret f a = ((format_loop f a).length : Int)
    ∧ utl_snprintf (some (List.replicate 4 ' ')) 4 "%s".toList
        [Arg.str (some "hello".toList)] =
      (5, some ['h', 'e', 'l', Char.ofNat 0]) := by
  refine ⟨?_, rfl, by decide⟩
  have hge := write_from_getElem?_ge b 0 (vsnprintf_chars f a) c n hn
  simp only [vsnprintf_buffer, out_buffer]
  split
  · rename_i h1
    rw [List.getElem?_set_ne (by omega)]
    exact hge
  · rename_i h1
    split
    · rename_i h2
      rw [List.getElem?_set_ne (by omega)]
      exact hge
    · exact hge

theorem snprintf_truncation_witness :
    (4 : Nat) ≤ 7 ∧
    (vsnprintf_buffer (List.replicate 8 'Z') 4 "%s".toList [Arg.str (some "hello".toList)])[7]?
      = (List.replicate 8 'Z' : List Char)[7]?
    ∧ utl_snprintf (some (List.replicate 4 ' ')) 4 "%s".toList
        [Arg.str (some "hello".toList)] =
      (5, some ['h', 'e', 'l', Char.ofNat 0]) := by
  have h := snprintf_truncation "%s".toList [Arg.str (some "hello".toList)]
    (List.replicate 8 'Z') 4 7 (by decide)
  exact ⟨by decide, h.1, h.2.2⟩

/-- C9: a NULL destination makes `_vsnprintf` use the `_out_null` sink — no
memory write happens and the full formatted length is still returned — and a
zero capacity writes nothing either, not even the terminator, because the
terminator store at `maxlen - 1` is guarded by the `idx < maxlen` check of
`_out_buffer`. -/
theorem vsnprintf_null_dest_zero_cap (f : List Char) (a : List Arg) (c : Nat)
    (b : List Char) :
    utl_snprintf none c f a = (((format_loop f a).length : Int), none)
    ∧ (utl_snprintf (some b) 0 f a).2 = some b := by
  constructor
  · rfl
  · show some (vsnprintf_buffer b 0 f a) = some b
    simp only [vsnprintf_buffer, out_buffer, write_from_zero]
    rw [if_neg (by omega)]

/-- C8: the formatter is deterministic and holds no state between calls —
formatting the same format and arguments into two independent destinations
of the same capacity stores identical bytes everywhere it stores at all, and
returns identical values; nothing outside the declared inputs influences the
result (in the embedding the formatter is a pure function of them). -/
theorem vsnprintf_deterministic (f : List Char) (a : List Arg) (c : Nat) (b1 b2 : List Char)
    (hb1 : c ≤ b1.length) (hb2 : c ≤ b2.length) (i : Nat) (hic : i < c)
    (hil : i ≤ (vsnprintf_chars f a).length) :
    (vsnprintf_buffer b1 c f a)[i]? = (vsnprintf_buffer b2 c f a)[i]?
    ∧ (utl_snprintf (some b1) c f a).1 = (utl_snprintf (some b2) c f a).1 := by
  refine ⟨?_, rfl⟩
  rw [vsnprintf_buffer_getElem?_written f a b1 c i hb1 hic hil,
    vsnprintf_buffer_getElem?_written f a b2 c i hb2 hic hil]

theorem vsnprintf_deterministic_witness :
    (4 : Nat) ≤ 4 ∧ (4 : Nat) ≤ 5 ∧ (2 : Nat) < 4
    ∧ (2 : Nat) ≤ (vsnprintf_chars "%d".toList [Arg.i32 42]).length
    ∧ (vsnprintf_buffer (List.replicate 4 'A') 4 "%d".toList [Arg.i32 42])[2]?
        = (vsnprintf_buffer (List.replicate 5 'B') 4 "%d".toList [Arg.i32 42])[2]?
    ∧ (utl_snprintf (some (List.replicate 4 'A')) 4 "%d".toList [Arg.i32 42]).1
        = (utl_snprintf (some (List.replicate 5 'B')) 4 "%d".toList [Arg.i32 42]).1 := by
  have h := vsnprintf_deterministic "%d".toList [Arg.i32 42] 4
    (List.replicate 4 'A') (List.replicate 5 'B') (by decide) (by decide) 2 (by decide)
    (by decide)
  exact ⟨by decide, by decide, by decide, by decide, h.1, h.2⟩

/-- C5: `%.2f` applied to `0.005` produces exactly `"0.01"`: the scaled
remainder is an exact tie (`0.005 * 100` lands on exactly `0.5`, both for
the C double computation and in the exact model), the truncated fractional
part is `0`, and the tie branch of `get_components` rounds it up to `1`. -/
theorem f_0_005_prec2 :
    (gc_remainder ⟨1, 200⟩ 2).beq Frac.half = true
    ∧ get_components ⟨1, 200⟩ 2 = ⟨0, 1, false⟩
    ∧ format_loop "%.2f".toList [Arg.dbl ⟨1, 200⟩] = "0.01".toList := by
  exact ⟨by decide, by decide, by decide⟩

/-- C6 (counterexample to the claimed `"1e+06"`): `%g` applied to
`1000000.0` with default precision produces `"1000000"`, not `"1e+06"`.
The log-approximation (lines 638–648) overshoots `10^6`, the correction
step (lines 650–653) decrements the estimated decimal exponent to 5, and
`5 < 6` makes the adaptive path fall back to fixed notation. -/
theorem g_1000000_counterexample :
    format_loop "%g".toList [Arg.dbl ⟨1000000, 1⟩] = "1000000".toList
    ∧ format_loop "%g".toList [Arg.dbl ⟨1000000, 1⟩] ≠ "1e+06".toList := by
  exact ⟨by decide, by decide⟩

/-- C6 (amended): with default precision `%g` of `100000.0` is `"100000"`
and `%g` of `1000000.0` is `"1000000"` — both through the fixed-notation
fall-back of the adaptive path. -/
theorem g_default_precision_outputs :
    format_loop "%g".toList [Arg.dbl ⟨100000, 1⟩] = "100000".toList
    ∧ format_loop "%g".toList [Arg.dbl ⟨1000000, 1⟩] = "1000000".toList := by
  exact ⟨by decide, by decide⟩

/-- C2 (counterexample): an exact tie whose truncated fractional part is `0`
is rounded *up* to the odd digit `1`, not to the nearest even value `0` —
the `(number_.fractional == 0U)` disjunct of the tie branch (line 429)
deliberately rounds up.  Input `1/20` (i.e. `0.05`, whose C double
computation also produces the exact tie), precision 1. -/
theorem get_components_tie_zero_rounds_odd :
    (gc_remainder ⟨1, 20⟩ 1).beq Frac.half = true
    ∧ gc_fractional_pre ⟨1, 20⟩ 1 = 0
    ∧ (get_components ⟨1, 20⟩ 1).fractional = 1
    ∧ (get_components ⟨1, 20⟩ 1).fractional % 2 = 1 := by
  exact ⟨by decide, by decide, by decide, by decide⟩

/-- C3 (the code violates the invariant): at the exact tie produced by
`0.95` with precision 1 — the double nearest `0.95` has its scaled remainder
land on exactly `9.5`, and the rational `19/20` reaches the same branch in
the model — the tie path of `get_components` rounds `fractional` from 9 up
to 10 = `10^1` *without* the carry: the `remainder == 0.5` branch (lines
428–433) lacks the rollover handling that the `remainder > 0.5` branch
(lines 420–427, with its own `handle rollover` comment) and
`get_normalized_components` (lines 513–518) both have.  Downstream, the
out-of-range `fractional` floods the 32-byte scratch buffer: `%.1f` of that
value prints 30 zeros followed by `10`. -/
theorem get_components_tie_rollover_bug :
    (gc_remainder ⟨19, 20⟩ 1).beq Frac.half = true
    ∧ gc_fractional_pre ⟨19, 20⟩ 1 = 9
    ∧ get_components ⟨19, 20⟩ 1 = ⟨0, 10, false⟩
    ∧ ¬ ((get_components ⟨19, 20⟩ 1).fractional < 10 ^ (1 : Nat))
    ∧ format_loop "%.1f".toList [Arg.dbl ⟨19, 20⟩]
        = "00000000000000000000000000000010".toList := by
  exact ⟨by decide, by decide, by decide, by decide, by decide⟩

theorem out_rev_has_reverse (buf : List Char) (width flags : Nat) :
    buf.reverse <:+: out_rev buf width flags := by
  unfold out_rev
  exact ⟨_, _, rfl⟩

/-- C7: for every width, precision and flag combination, `%s` with a NULL
string argument emits the literal `"(null)"` placeholder (inside whatever
padding applies) and `%p` with a null pointer argument emits `"(nil)"` —
the null pointer is never dereferenced (the branches are total functions of
the shown inputs) and the call completes normally.  With no width the
placeholders are the exact output. -/
theorem null_placeholders (width precision flags : Nat) :
    "(null)".toList <:+: conv_s none precision width flags
    ∧ "(nil)".toList <:+: conv_p 0 precision flags
    ∧ format_loop "%s".toList [Arg.str none] = "(null)".toList
    ∧ format_loop "%p".toList [Arg.ptr 0] = "(nil)".toList := by
  refine ⟨?_, ?_, by decide, by decide⟩
  · have h := out_rev_has_reverse ")llun(".toList width flags
    have hrev : ")llun(".toList.reverse = "(null)".toList := by decide
    rw [hrev] at h
    exact h
  · have h := out_rev_has_reverse ")lin(".toList 18
      (flags ||| FLAGS_ZEROPAD ||| FLAGS_POINTER)
    have hrev : ")lin(".toList.reverse = "(nil)".toList := by decide
    rw [hrev] at h
    simpa [conv_p] using h

/-- The characters that have a role inside a `%…` token: flags, `*`, `.`,
the length modifiers, and the recognized conversion letters (digits are
excluded via `is_digit`). -/
def conv_token_chars : List Char :=
  ['0', '-', '+', ' ', '#', '*', '.', 'l', 'h', 't', 'j', 'z',
   'd', 'i', 'u', 'x', 'X', 'o', 'b', 'f', 'F', 'e', 'E', 'g', 'G', 'c', 's', 'p', '%']

/-- C4 (amended): a `%` token whose next character is unrecognized (no flag,
digit, `*`, `.`, length modifier or conversion letter) emits only that
character verbatim — the consumed `%` is dropped, not re-emitted — and
consumes no variadic argument; the scan continues after it. -/
theorem unrecognized_conv (c : Char) (hdig : is_digit c = false)
    (hc : c ∉ conv_token_chars) (rest : List Char) (args : List Arg) :
    format_loop ('%' :: c :: rest) args = c :: format_loop rest args
    ∧ parse_token (c :: rest) args = ([c], rest, args) := by
  simp only [conv_token_chars, List.mem_cons, List.not_mem_nil, or_false] at hc
  push_neg at hc
  obtain ⟨h0, hm, hp, hsp, hh, hst, hdot, hl, hhh, ht, hj, hz, hd, hi, hu,
    hx, hX, ho, hb, hf, hF, he, hE, hg, hG, hcc, hs, hpp, hpc⟩ := hc
  have hpt : parse_token (c :: rest) args = ([c], rest, args) := by
    simp [parse_token, parse_flags, parse_width, parse_precision, parse_length, conv_spec,
      hdig, h0, hm, hp, hsp, hh, hst, hdot, hl, hhh, ht, hj, hz, hd, hi, hu, hx, hX, ho,
      hb, hf, hF, he, hE, hg, hG, hcc, hs, hpp, hpc]
  refine ⟨?_, hpt⟩
  show format_go (('%' :: c :: rest).length + 1) ('%' :: c :: rest) args = _
  simp only [List.length_cons, format_go, reduceIte, hpt]
  rw [format_go_fuel (rest.length + 1 + 1) (rest.length + 1) rest args (by omega) (by omega)]
  rfl

theorem unrecognized_conv_witness :
    is_digit 'q' = false ∧ 'q' ∉ conv_token_chars
    ∧ format_loop ('%' :: 'q' :: "x".toList) [Arg.i32 7]
        = 'q' :: format_loop "x".toList [Arg.i32 7]
    ∧ parse_token ('q' :: "x".toList) [Arg.i32 7] = (['q'], "x".toList, [Arg.i32 7]) := by
  have h := unrecognized_conv 'q' (by decide) (by decide) "x".toList [Arg.i32 7]
  exact ⟨by decide, by decide, h.1, h.2⟩

/-- C4 (counterexample to the claim as stated): `"%q"` emits just `"q"`; the
`%` is consumed and *not* emitted, so the output does not contain `%`. -/
theorem percent_dropped_counterexample :
    format_loop "%q".toList [] = ['q'] ∧ '%' ∉ format_loop "%q".toList [] := by
  exact ⟨by decide, by decide⟩

theorem Frac.lt_def (a b : Frac) : (a < b) = (a.num * b.den < b.num * a.den) := rfl

theorem Frac.beq_iff (a b : Frac) : (a.beq b = true) ↔ a.num * b.den = b.num * a.den := by
  simp [Frac.beq]

/-- The fractional part of `get_components`, case by case over the rounding
branches (the `precision == 0` block only touches the integral part). -/
theorem get_components_fractional_formula (number : Frac) (precision : Nat) :
    (get_components number precision).fractional =
      if Frac.half < gc_remainder number precision then
        (if powers_of_10 precision ≤ Frac.ofInt (gc_fractional_pre number precision + 1)
          then 0 else gc_fractional_pre number precision + 1)
      else if (gc_remainder number precision).beq Frac.half then
        (if gc_fractional_pre number precision = 0 ∨
            gc_fractional_pre number precision % 2 = 1
          then gc_fractional_pre number precision + 1
          else gc_fractional_pre number precision)
      else gc_fractional_pre number precision := by
  simp only [get_components]
  split_ifs <;> rfl

/-- C2 (amended): at an exact tie (`remainder == 0.5`) with a *nonzero*
truncated fractional part, `get_components` rounds the last digit to even
(an odd value is incremented, a nonzero even value is kept — the result is
always even); at an exact tie with fractional part `0` it instead rounds up
to the odd value `1`; above the tie it rounds up (rolling the carry into the
integral part when the fractional part reaches `10^precision`); below the
tie it truncates — i.e. non-tie remainders round half-up. -/
theorem get_components_rounding (number : Frac) (precision : Nat) :
    ((gc_remainder number precision).beq Frac.half = true →
        gc_fractional_pre number precision ≠ 0 →
        (get_components number precision).fractional =
            gc_fractional_pre number precision + gc_fractional_pre number precision % 2
          ∧ (get_components number precision).fractional % 2 = 0)
    ∧ ((gc_remainder number precision).beq Frac.half = true →
        gc_fractional_pre number precision = 0 →
        (get_components number precision).fractional = 1)
    ∧ (Frac.half < gc_remainder number precision →
        (get_components number precision).fractional =
          if powers_of_10 precision ≤ Frac.ofInt (gc_fractional_pre number precision + 1)
          then 0 else gc_fractional_pre number precision + 1)
    ∧ (gc_remainder number precision < Frac.half →
        (get_components number precision).fractional = gc_fractional_pre number precision) := by
  have hf := get_components_fractional_formula number precision
  refine ⟨fun htie hne => ?_, fun htie h0 => ?_, fun hgt => ?_, fun hlt => ?_⟩
  · rw [Frac.beq_iff] at htie
    have hnlt : ¬ Frac.half < gc_remainder number precision := by
      rw [Frac.lt_def]
      simp only [Frac.half] at htie ⊢
      omega
    rw [hf, if_neg hnlt, if_pos (by rw [Frac.beq_iff]; exact htie)]
    by_cases hodd : gc_fractional_pre number precision % 2 = 1
    · rw [if_pos (Or.inr hodd)]
      exact ⟨by omega, by omega⟩
    · rw [if_neg (fun h => h.elim hne hodd)]
      exact ⟨by omega, by omega⟩
  · rw [Frac.beq_iff] at htie
    have hnlt : ¬ Frac.half < gc_remainder number precision := by
      rw [Frac.lt_def]
      simp only [Frac.half] at htie ⊢
      omega
    rw [hf, if_neg hnlt, if_pos (by rw [Frac.beq_iff]; exact htie), if_pos (Or.inl h0), h0]
    norm_num
  · rw [hf, if_pos hgt]
  · rw [Frac.lt_def] at hlt
    have hnlt : ¬ Frac.half < gc_remainder number precision := by
      rw [Frac.lt_def]
      simp only [Frac.half] at hlt ⊢
      omega
    have hne : ¬ ((gc_remainder number precision).beq Frac.half = true) := by
      rw [Frac.beq_iff]
      simp only [Frac.half] at hlt ⊢
      omega
    rw [hf, if_neg hnlt, if_neg hne]

theorem get_components_rounding_witness :
    (gc_remainder ⟨1, 4⟩ 1).beq Frac.half = true
    ∧ gc_fractional_pre ⟨1, 4⟩ 1 ≠ 0
    ∧ (get_components ⟨1, 4⟩ 1).fractional =
        gc_fractional_pre ⟨1, 4⟩ 1 + gc_fractional_pre ⟨1, 4⟩ 1 % 2
    ∧ (get_components ⟨1, 4⟩ 1).fractional % 2 = 0
    ∧ Frac.half < gc_remainder ⟨7, 10⟩ 0
    ∧ (get_components ⟨7, 10⟩ 0).fractional =
        (if powers_of_10 0 ≤ Frac.ofInt (gc_fractional_pre ⟨7, 10⟩ 0 + 1)
          then 0 else gc_fractional_pre ⟨7, 10⟩ 0 + 1) := by
  have h1 := (get_components_rounding ⟨1, 4⟩ 1).1 (by decide) (by decide)
  have h2 := (get_components_rounding ⟨7, 10⟩ 0).2.2.1 (by decide)
  exact ⟨by decide, by decide, h1.1, h1.2, by decide, h2⟩

theorem digits_len_le_19 (n : Nat) (hn : n < 10 ^ 19) : (Nat.digits 10 n).length ≤ 19 := by
  by_cases h0 : n = 0
  · subst h0
    simp
  · have h := Nat.base_pow_length_digits_le 10 n (by norm_num) h0
    have h2 : 10 ^ (Nat.digits 10 n).length < 10 ^ 20 := by
      calc 10 ^ (Nat.digits 10 n).length ≤ 10 * n := h
        _ < 10 * 10 ^ 19 := by omega
        _ = 10 ^ 20 := by norm_num
    have h3 := (Nat.pow_lt_pow_iff_right (by norm_num : 1 < 10)).mp h2
    omega

/-- The digit do-while loop of `_ntoa` produces exactly the base-10 digits,
least significant first, whenever the fuel (remaining scratch capacity)
covers the digit count. -/
theorem ntoa_digits_eq_digits (fuel : Nat) (n : Nat) (hn : 0 < n)
    (hfuel : (Nat.digits 10 n).length ≤ fuel) (upper : Bool) :
    ntoa_digits n 10 upper fuel =
      (Nat.digits 10 n).map (fun d => Char.ofNat ('0'.toNat + d)) := by
  induction fuel generalizing n with
  | zero =>
    have hne : Nat.digits 10 n ≠ [] := Nat.digits_ne_nil_iff_ne_zero.mpr (by omega)
    cases hd : Nat.digits 10 n with
    | nil => exact absurd hd hne
    | cons a l =>
      rw [hd] at hfuel
      simp at hfuel
  | succ k ih =>
    rw [Nat.digits_def' (by norm_num : 1 < 10) hn]
    simp only [ntoa_digits]
    rw [if_pos (Nat.mod_lt _ (by norm_num))]
    by_cases h10 : n / 10 = 0
    · rw [if_pos h10, h10]
      simp
    · rw [if_neg h10]
      rw [ih (n / 10) (Nat.pos_of_ne_zero h10) ?_]
      · simp
      · have := hfuel
        rw [Nat.digits_def' (by norm_num : 1 < 10) hn] at this
        simpa using this

/-- Lemma: `_ntoa_format` with no width, no precision and only the length flags set
reduces to the reversed scratch buffer with an optional minus sign. -/
theorem ntoa_format_plain (buf : List Char) (neg : Bool) (hlen : buf.length < 32) :
    ntoa_format buf neg 10 0 0 (FLAGS_LONG ||| FLAGS_LONG_LONG) =
      (if neg then buf ++ ['-'] else buf).reverse := by
  have h1 : hasFlag (FLAGS_LONG ||| FLAGS_LONG_LONG) FLAGS_LEFT = false := by decide
  have h2 : hasFlag (FLAGS_LONG ||| FLAGS_LONG_LONG) FLAGS_ZEROPAD = false := by decide
  have h3 : hasFlag (FLAGS_LONG ||| FLAGS_LONG_LONG) (FLAGS_HASH ||| FLAGS_POINTER) = false := by
    decide
  have h4 : hasFlag (FLAGS_LONG ||| FLAGS_LONG_LONG) FLAGS_PLUS = false := by decide
  have h5 : hasFlag (FLAGS_LONG ||| FLAGS_LONG_LONG) FLAGS_SPACE = false := by decide
  simp only [ntoa_format, out_rev, PRINTF_NTOA_BUFFER_SIZE]
  simp [h1, h2, h3, h4, h5, hlen]

/-- The correct decimal representation of a signed integer (comparison
definition for C10, following the spec's wording: a leading minus sign for a
negative value, then the base-10 digits, most significant first). -/
def decimal_rep_spec (v : Int) : List Char :=
  (if v < 0 then ['-'] else [])
    ++ (if v.natAbs = 0 then ['0']
        else ((Nat.digits 10 v.natAbs).map (fun d => Char.ofNat ('0'.toNat + d))).reverse)

theorem ntoa_decimal_default (n : Nat) (neg : Bool) (hn : n < 10 ^ 19) :
    ntoa n neg 10 0 0 (FLAGS_LONG ||| FLAGS_LONG_LONG) =
      (if neg then ['-'] else [])
        ++ (if n = 0 then ['0']
            else ((Nat.digits 10 n).map (fun d => Char.ofNat ('0'.toNat + d))).reverse) := by
  by_cases hn0 : n = 0
  · subst hn0
    cases neg <;> decide
  · have hlen19 := digits_len_le_19 n hn
    have hup : hasFlag (FLAGS_LONG ||| FLAGS_LONG_LONG) FLAGS_UPPERCASE = false := by decide
    simp only [ntoa, if_neg hn0, hup]
    rw [ntoa_digits_eq_digits PRINTF_NTOA_BUFFER_SIZE n (Nat.pos_of_ne_zero hn0)
      (by simp only [PRINTF_NTOA_BUFFER_SIZE]; omega) false]
    rw [ntoa_format_plain _ _ (by simp only [List.length_map]; omega)]
    cases neg
    · simp
    · simp

theorem lld_parse_token (v : Int) :
    parse_token ('l' :: 'l' :: 'd' :: []) [Arg.i64 v] =
      (ntoa (ntoa_abs v) (decide (v < 0)) 10 0 0 (FLAGS_LONG ||| FLAGS_LONG_LONG), [], []) := by
  have hcf : clearFlag (FLAGS_LONG ||| FLAGS_LONG_LONG) FLAGS_HASH
      = FLAGS_LONG ||| FLAGS_LONG_LONG := by decide
  simp +decide [parse_token, parse_flags, parse_width, parse_precision, parse_length,
    conv_spec, conv_num, va_i64, is_digit, hcf]

theorem lld_trace (v : Int) :
    format_loop "%lld".toList [Arg.i64 v] =
      ntoa (ntoa_abs v) (decide (v < 0)) 10 0 0 (FLAGS_LONG ||| FLAGS_LONG_LONG) := by
  show format_go 5 ('%' :: 'l' :: 'l' :: 'd' :: []) [Arg.i64 v] = _
  rw [show format_go 5 ('%' :: 'l' :: 'l' :: 'd' :: []) [Arg.i64 v] =
    (parse_token ('l' :: 'l' :: 'd' :: []) [Arg.i64 v]).1
      ++ format_go 4 (parse_token ('l' :: 'l' :: 'd' :: []) [Arg.i64 v]).2.1
        (parse_token ('l' :: 'l' :: 'd' :: []) [Arg.i64 v]).2.2 from rfl]
  rw [lld_parse_token]
  simp [format_go]

/-- The macro `NTOA_ABS` computes the exact magnitude over the whole 64-bit signed
range: the value is cast to `unsigned long long` *before* the negation, so
`LLONG_MIN` maps to `2^63` with no signed overflow. -/
theorem ntoa_abs_in_range (v : Int) (h1 : -(2 ^ 63) ≤ v) (h2 : v < 2 ^ 63) :
    ntoa_abs v = v.natAbs := by
  have e64 : (2 : Int) ^ 64 = 18446744073709551616 := by norm_num
  have e63 : (2 : Int) ^ 63 = 9223372036854775808 := by norm_num
  have n64 : (2 : Nat) ^ 64 = 18446744073709551616 := by norm_num
  rw [e63] at h1 h2
  unfold ntoa_abs
  rw [e64, n64]
  split
  · rename_i hpos
    omega
  · rename_i hpos
    omega

/-- C10: for every 64-bit signed argument — the most negative value
included — `%lld` consumes the value via `NTOA_ABS` (magnitude by
cast-then-negate, equal to the absolute value) and the emitted text is the
correct decimal representation, with a leading `-` for negatives. -/
theorem lld_correct (v : Int) (h1 : -(2 ^ 63) ≤ v) (h2 : v < 2 ^ 63) :
    ntoa_abs v = v.natAbs
    ∧ format_loop "%lld".toList [Arg.i64 v] = decimal_rep_spec v := by
  have habs := ntoa_abs_in_range v h1 h2
  refine ⟨habs, ?_⟩
  rw [lld_trace, habs]
  have hn : v.natAbs < 10 ^ 19 := by
    have e19 : (10 : Nat) ^ 19 = 10000000000000000000 := by norm_num
    have e63 : (2 : Int) ^ 63 = 9223372036854775808 := by norm_num
    rw [e63] at h1 h2
    omega
  rw [ntoa_decimal_default v.natAbs (decide (v < 0)) hn]
  unfold decimal_rep_spec
  by_cases hv : v < 0
  · simp [hv]
  · simp [hv]

theorem lld_correct_witness :
    (-(2 ^ 63) : Int) ≤ -(2 ^ 63) ∧ (-(2 ^ 63) : Int) < 2 ^ 63
    ∧ ntoa_abs (-(2 ^ 63)) = (-(2 ^ 63) : Int).natAbs
    ∧ format_loop "%lld".toList [Arg.i64 (-(2 ^ 63))] = decimal_rep_spec (-(2 ^ 63))
    ∧ decimal_rep_spec (-(2 ^ 63)) = "-9223372036854775808".toList := by
  have h := lld_correct (-(2 ^ 63)) (by norm_num) (by norm_num)
  refine ⟨by norm_num, by norm_num, h.1, h.2, by norm_num [decimal_rep_spec] <;> decide⟩
